import Mathlib

/-!
Verification of the namescan command-line tool (`src/namescan/cli.py`) against its
natural-language specification.  The file shallowly embeds the data model and the
`main` coroutine of `cli.py`: pure computations become Lean functions, the awaited
pipeline becomes explicit sequencing in the `Except` monad, the external
collaborators (file system, network, event-loop completion order) become explicit
function parameters, and Python exceptions become `Except.error` values.
-/

namespace Namescan

/-- A member of the `Platforms` enum (`namescan.platforms`).  Modelled from the spec:
`platforms.py` is not under `src/`; per the spec a platform is identified by a unique
name, and `cli.py` line 50 looks members up by their upper-case member name. -/
structure Platform where
  name : String
deriving DecidableEq

/-- The response object returned by `util.is_username_available`: `cli.py` reads the
attributes `username`, `platform`, `valid`, `success` and `message` from it
(lines 69-91).  Modelled from the spec for the fields the CLI consumes. -/
structure QueryResult where
  username : String
  platform : Platform
  valid : Bool
  success : Bool
  message : String
deriving DecidableEq

/-- The kind of exception a settled availability-check coroutine can raise, as
distinguished by the `except (aiohttp.ClientError, KeyError)` clause on line 72:
an `aiohttp.ClientError` (any subclass, hence it carries its type name), a
`KeyError`, or any other exception type. -/
inductive ExcKind where
  | clientError (tyName msg : String)
  | keyError (msg : String)
  | other (tyName msg : String)
deriving DecidableEq

/-- How one awaited availability-check coroutine settles: with a `QueryResult`
or by raising an exception. -/
inductive Settlement where
  | ok (r : QueryResult)
  | exc (e : ExcKind)
deriving DecidableEq

/-- The ways `main` can terminate with an uncaught Python exception:
the two `raise ValueError` statements (lines 46 and 53), the `AttributeError`
from an attribute missing on the argparse namespace (line 42), an I/O error
from `open`, or an exception propagating out of the collection loop. -/
inductive PyError where
  | valueError (msg : String)
  | attributeError (msg : String)
  | ioError (msg : String)
  | uncaught (tyName msg : String)
deriving DecidableEq

/-- `colorama.Back.RED` — the ANSI escape prepended to each recorded exception
on line 73. -/
def BACK_RED : String := "\x1b[41m"

/-- Line 73: `colorama.Back.RED + f"{type(e).__name__}: {e}"`. -/
def formatException : ExcKind → String
  | ExcKind.clientError ty m => BACK_RED ++ ty ++ ": " ++ m
  | ExcKind.keyError m => BACK_RED ++ "KeyError: " ++ m
  | ExcKind.other ty m => BACK_RED ++ ty ++ ": " ++ m

/-- Whether an exception kind is matched by `except (aiohttp.ClientError, KeyError)`
(line 72). -/
def isCaught : ExcKind → Bool
  | ExcKind.clientError _ _ => true
  | ExcKind.keyError _ => true
  | ExcKind.other _ _ => false

/-- A settlement that does not abort the collection loop: a returned result or a
caught exception. -/
def settled : Settlement → Bool
  | Settlement.ok _ => true
  | Settlement.exc e => isCaught e

/-- The retention condition of line 69:
`args.available_only and response.valid or not args.available_only`. -/
def retainResponse (availableOnly : Bool) (r : QueryResult) : Bool :=
  (availableOnly && r.valid) || !availableOnly

/-- The collection loop, lines 66-73: each settlement either contributes a retained
result (line 70), a recorded exception string (line 73), or — for an exception kind
not listed on line 72 — propagates and aborts the loop, discarding the
partially-collected state. -/
def collectResponses (availableOnly : Bool) :
    List Settlement → Except PyError (List QueryResult × List String)
  | [] => Except.ok ([], [])
  | Settlement.ok r :: rest =>
      (collectResponses availableOnly rest).map fun p =>
        (if retainResponse availableOnly r then r :: p.1 else p.1, p.2)
  | Settlement.exc (ExcKind.clientError ty m) :: rest =>
      (collectResponses availableOnly rest).map fun p =>
        (p.1, formatException (ExcKind.clientError ty m) :: p.2)
  | Settlement.exc (ExcKind.keyError m) :: rest =>
      (collectResponses availableOnly rest).map fun p =>
        (p.1, formatException (ExcKind.keyError m) :: p.2)
  | Settlement.exc (ExcKind.other ty m) :: _ => Except.error (PyError.uncaught ty m)

/-- The results returned (not raised) by a list of settlements, in order. -/
def okResults (S : List Settlement) : List QueryResult :=
  S.filterMap fun s =>
    match s with
    | Settlement.ok r => some r
    | Settlement.exc _ => none

/-- The formatted strings recorded for the caught exceptions of a list of
settlements, in order. -/
def caughtStrings (S : List Settlement) : List String :=
  S.filterMap fun s =>
    match s with
    | Settlement.ok _ => none
    | Settlement.exc e => if isCaught e then some (formatException e) else none

/-- Python string comparison on lists of code points: lexicographic, a prefix
preceding its extensions. -/
def charListLe : List Char → List Char → Bool
  | [], _ => true
  | _ :: _, [] => false
  | a :: as, b :: bs =>
      if a.toNat < b.toNat then true
      else if b.toNat < a.toNat then false
      else charListLe as bs

/-- Python `s1 <= s2` on strings: lexicographic comparison of code points. -/
def pyStrLe (a b : String) : Bool :=
  charListLe a.data b.data

/-- Python `c.upper()` restricted to ASCII, which covers every character of the
registered platform names. -/
def pyCharUpper (c : Char) : Char :=
  if 97 ≤ c.toNat && c.toNat ≤ 122 then Char.ofNat (c.toNat - 32) else c

/-- Python `s.upper()` (line 50), ASCII case mapping. -/
def pyUpper (s : String) : String :=
  String.mk (s.data.map pyCharUpper)

/-- The sort key of line 80, `attrgetter('valid', 'success')`: Python compares the
Bool pair lexicographically with `False < True`, encoded here as a number. -/
def validSuccessKey (r : QueryResult) : Nat :=
  (if r.valid then 2 else 0) + (if r.success then 1 else 0)

/-- The comparison of the first sorting pass (line 79), ascending on
`attrgetter('platform.name')` under Python string comparison. -/
def nameLe (a b : QueryResult) : Prop :=
  pyStrLe a.platform.name b.platform.name = true

/-- The comparison of the second sorting pass (line 80), `reverse=True` on the
`(valid, success)` key, hence descending. -/
def keyGe (a b : QueryResult) : Prop :=
  validSuccessKey b ≤ validSuccessKey a

theorem charListLe_total : ∀ as bs, charListLe as bs = true ∨ charListLe bs as = true := by
  intro as
  induction as with
  | nil => intro bs; left; rfl
  | cons a as ih =>
    intro bs
    cases bs with
    | nil => right; rfl
    | cons b bs =>
      by_cases hab : a.toNat < b.toNat
      · left; simp [charListLe, hab]
      · by_cases hba : b.toNat < a.toNat
        · right; simp [charListLe, hba]
        · rcases ih bs with h | h
          · left; simp [charListLe, hab, hba, h]
          · right; simp [charListLe, hab, hba, h]

theorem charListLe_trans :
    ∀ as bs cs, charListLe as bs = true → charListLe bs cs = true →
      charListLe as cs = true := by
  intro as
  induction as with
  | nil => intro bs cs _ _; rfl
  | cons a as ih =>
    intro bs cs h1 h2
    cases bs with
    | nil => simp [charListLe] at h1
    | cons b bs =>
      cases cs with
      | nil => simp [charListLe] at h2
      | cons c cs =>
        simp only [charListLe] at h1 h2 ⊢
        split_ifs at h1 h2 ⊢ <;>
          first
          | rfl
          | omega
          | exact ih bs cs h1 h2

instance : DecidableRel nameLe := fun a b =>
  inferInstanceAs (Decidable (pyStrLe a.platform.name b.platform.name = true))

instance : DecidableRel keyGe := fun a b =>
  inferInstanceAs (Decidable (validSuccessKey b ≤ validSuccessKey a))

instance : IsTotal QueryResult nameLe :=
  ⟨fun a b => charListLe_total a.platform.name.data b.platform.name.data⟩

instance : IsTrans QueryResult nameLe :=
  ⟨fun _ b _ h1 h2 => charListLe_trans _ b.platform.name.data _ h1 h2⟩

instance : IsTotal QueryResult keyGe :=
  ⟨fun a b => (Nat.le_total (validSuccessKey b) (validSuccessKey a)).imp id id⟩

instance : IsTrans QueryResult keyGe :=
  ⟨fun _ _ _ h1 h2 => Nat.le_trans h2 h1⟩

/-- Lines 79-80: `responses.sort(key=attrgetter('platform.name'))` followed by
`responses.sort(key=attrgetter('valid', 'success'), reverse=True)`.  Python's
`list.sort` is a stable ascending sort; a stable sort over a decidable total
preorder is extensionally unique, so each pass is embedded as a stable insertion
sort over the corresponding key comparison. -/
def sortResponses (rs : List QueryResult) : List QueryResult :=
  List.insertionSort keyGe (List.insertionSort nameLe rs)

/-- The worker of `dictFromKeys`, carrying the set of usernames already seen. -/
def dictFromKeysGo (seen : List String) : List String → List String
  | [] => []
  | x :: xs =>
      if x ∈ seen then dictFromKeysGo seen xs
      else x :: dictFromKeysGo (x :: seen) xs

/-- Line 56: `usernames = list(dict.fromkeys(usernames))` — deduplication keeping
the first occurrence of each username, in insertion order. -/
def dictFromKeys (l : List String) : List String :=
  dictFromKeysGo [] l

/-- The argparse namespace produced by `parser.parse_args()` (lines 29-38):
`usernames` from the positional arguments, `restrict` and `input_file` absent
(`none`) when the flag is not given, and the two `store_true` flags. -/
structure Namespace where
  usernames : List String
  restrict : Option (List String)
  input_file : Option String
  cache_tokens : Bool
  available_only : Bool
deriving DecidableEq

/-- A value stored in an attribute of the argparse namespace. -/
inductive AttrVal where
  | strs (l : List String)
  | ostrs (o : Option (List String))
  | ostr (o : Option String)
  | flag (b : Bool)
deriving DecidableEq

/-- Python attribute access on the argparse namespace: only the five attributes
declared by `parser.add_argument` exist; any other attribute name yields `none`
(an `AttributeError` at the access site). -/
def Namespace.getattr (ns : Namespace) : String → Option AttrVal
  | "usernames" => some (AttrVal.strs ns.usernames)
  | "restrict" => some (AttrVal.ostrs ns.restrict)
  | "input_file" => some (AttrVal.ostr ns.input_file)
  | "cache_tokens" => some (AttrVal.flag ns.cache_tokens)
  | "available_only" => some (AttrVal.flag ns.available_only)
  | _ => none

/-- Splits file contents at newline code points: a newline terminates a line, and
trailing characters after the last newline form a final line. -/
def splitLines (acc : List Char) : List Char → List String
  | [] => if acc.isEmpty then [] else [String.mk acc.reverse]
  | c :: cs =>
      if c = '\n' then String.mk acc.reverse :: splitLines [] cs
      else splitLines (c :: acc) cs

/-- Iterating a Python text file yields its lines with the trailing newline kept,
which `line.strip("\n")` then removes (lines 43-44). -/
def fileLines (s : String) : List String :=
  splitLines [] s.data

/-- Lines 41-44.  `if args.input_file:` is Python truthiness (absent or empty path
skips the block); inside the block, line 42 opens `args.input` — an attribute that
`parse_args` never sets (the flag `--input-file` produces `input_file`), so the
access itself is evaluated first and raises `AttributeError`.  `fileRead` is the
external file system: `none` means `open` fails. -/
def appendInputFile (ns : Namespace) (fileRead : String → Option String) :
    Except PyError (List String) :=
  match ns.getattr "input_file" with
  | some (AttrVal.ostr (some p)) =>
      if p = "" then Except.ok ns.usernames
      else
        match ns.getattr "input" with
        | none => Except.error (PyError.attributeError
            "Namespace object has no attribute input")
        | some (AttrVal.ostr (some path)) =>
            match fileRead path with
            | some contents => Except.ok (ns.usernames ++ fileLines contents)
            | none => Except.error (PyError.ioError path)
        | some _ => Except.error (PyError.ioError p)
  | _ => Except.ok ns.usernames

/-- Lines 50-53: membership test `p.upper() in Platforms.__members__` followed by
the enum lookup `Platforms[p.upper()]`; an unknown name raises
`ValueError(p + " is not a valid platform")`. -/
def lookupPlatform (allPlatforms : List Platform) (s : String) : Except PyError Platform :=
  match allPlatforms.find? (fun pl => pl.name == pyUpper s) with
  | some pl => Except.ok pl
  | none => Except.error (PyError.valueError (s ++ " is not a valid platform"))

/-- The loop of lines 48-53: resolve each restriction name in order, raising at the
first unknown one. -/
def resolveRestrict (allPlatforms : List Platform) :
    List String → Except PyError (List Platform)
  | [] => Except.ok []
  | s :: rest =>
      match lookupPlatform allPlatforms s with
      | Except.error e => Except.error e
      | Except.ok pl =>
          match resolveRestrict allPlatforms rest with
          | Except.error e => Except.error e
          | Except.ok ps => Except.ok (pl :: ps)

/-- Lines 47-55: `if args.restrict:` — truthy only for a present, non-empty list;
otherwise every registered platform is selected. -/
def selectPlatforms (allPlatforms : List Platform) :
    Option (List String) → Except PyError (List Platform)
  | some rs =>
      if rs.isEmpty then Except.ok allPlatforms
      else resolveRestrict allPlatforms rs
  | none => Except.ok allPlatforms

/-- Line 63: the task list
`[util.is_username_available(i, username, session) for username in usernames for i in platforms]`
— for each username in order, one task per platform in order. -/
def platformQueries (usernames : List String) (platforms : List Platform) :
    List (String × Platform) :=
  usernames.flatMap fun u => platforms.map fun p => (u, p)

/-- Modelled from the spec: `namescan.util.prerequest` is not under `src/`.  Per
spec section 4.2 each token fetch settles independently — it caches a token or
records a failure, and does not raise — so its outcome is a value, not an
exception. -/
inductive TokenFetch where
  | fetched (token : String)
  | failed (detail : String)
deriving DecidableEq

/-- An observable step of the run, used to state the ordering guarantees of the
token-prefetch barrier: line 61 awaits `asyncio.gather` over all prerequests
before line 63 creates and line 66 schedules the availability-check coroutines. -/
inductive Event where
  | prefetchSettled (p : Platform)
  | checkStarted (q : String × Platform)
  | checkSettled (q : String × Platform)
deriving DecidableEq

/-- Whether an event is the settling of a token prefetch. -/
def isPrefetchEvent : Event → Bool
  | Event.prefetchSettled _ => true
  | _ => false

/-- Whether an event is the launch of an availability check. -/
def isCheckStartEvent : Event → Bool
  | Event.checkStarted _ => true
  | _ => false

/-- The external collaborators of one run: the file system, the token-fetch
outcomes (modelled from the spec, see `TokenFetch`), how each availability-check
coroutine settles, and the completion order in which `asyncio.as_completed`
yields the tasks (a reordering of the task list). -/
structure RunConfig where
  fileRead : String → Option String
  prefetch : Platform → TokenFetch
  settleOf : String × Platform → Settlement
  sched : List (String × Platform) → List (String × Platform)

/-- Everything observable about a completed run of `main`: the settled prefetch
outcomes, the issued task list, the per-username presentation blocks
(lines 74-80), the recorded exception strings (printed on line 92), the query
count of the summary line 93, and the event trace. -/
structure RunOutput where
  prefetched : List (Platform × TokenFetch)
  queries : List (String × Platform)
  perUser : List (String × List QueryResult)
  exceptions : List String
  summaryCount : Nat
  trace : List Event
deriving DecidableEq

/-- The `main` coroutine of `cli.py` (lines 24-93), with argument parsing already
done (`ns`) and the external world abstracted into `cfg`.  Sequencing follows the
source: read the input file into the username list (lines 41-44), reject an empty
username list (lines 45-46; `usernames` aliases `args.usernames`, so the check
sees the combined list), resolve the restriction list (lines 47-55), deduplicate
(line 56), then — inside the HTTP session — prefetch tokens when requested
(lines 59-62), build and run the task list (lines 63-73) and group the retained
results per username in input order (lines 74-80). -/
def main (allPlatforms : List Platform) (ns : Namespace) (cfg : RunConfig) :
    Except PyError RunOutput :=
  match appendInputFile ns cfg.fileRead with
  | Except.error e => Except.error e
  | Except.ok usernames0 =>
    if usernames0.isEmpty then
      Except.error (PyError.valueError "you must specify either a username or an input file")
    else
      match selectPlatforms allPlatforms ns.restrict with
      | Except.error e => Except.error e
      | Except.ok platforms =>
        let usernames := dictFromKeys usernames0
        let prefetched :=
          if ns.cache_tokens then platforms.map (fun p => (p, cfg.prefetch p)) else []
        let queries := platformQueries usernames platforms
        let completed := cfg.sched queries
        match collectResponses ns.available_only (completed.map cfg.settleOf) with
        | Except.error e => Except.error e
        | Except.ok (retained, exceptions) =>
          Except.ok
            { prefetched := prefetched
              queries := queries
              perUser := usernames.map fun u =>
                (u, sortResponses (retained.filter fun r => r.username == u))
              exceptions := exceptions
              summaryCount := queries.length
              trace :=
                (if ns.cache_tokens then platforms.map Event.prefetchSettled else [])
                  ++ queries.map Event.checkStarted
                  ++ completed.map Event.checkSettled }

/-! ### Lemmas about the collection loop -/

theorem collectResponses_eq_of_settled (ao : Bool) :
    ∀ S : List Settlement, (∀ s ∈ S, settled s = true) →
      collectResponses ao S =
        Except.ok ((okResults S).filter (retainResponse ao), caughtStrings S) := by
  intro S
  induction S with
  | nil => intro _; rfl
  | cons s rest ih =>
    intro h
    have hrest : ∀ s ∈ rest, settled s = true := fun x hx => h x (List.mem_cons_of_mem s hx)
    have hs : settled s = true := h s (List.mem_cons_self s rest)
    cases s with
    | ok r =>
      simp only [collectResponses, ih hrest, okResults, caughtStrings, List.filterMap_cons,
        Except.map, List.filter]
      cases retainResponse ao r <;> rfl
    | exc e =>
      cases e with
      | clientError ty m =>
        simp [collectResponses, ih hrest, okResults, caughtStrings, isCaught,
          List.filterMap_cons, Except.map]
      | keyError m =>
        simp [collectResponses, ih hrest, okResults, caughtStrings, isCaught,
          List.filterMap_cons, Except.map]
      | other ty m =>
        simp [settled, isCaught] at hs

theorem collectResponses_error (ao : Bool) (ty m : String) (S2 : List Settlement) :
    ∀ S1 : List Settlement, (∀ s ∈ S1, settled s = true) →
      collectResponses ao (S1 ++ Settlement.exc (ExcKind.other ty m) :: S2) =
        Except.error (PyError.uncaught ty m) := by
  intro S1
  induction S1 with
  | nil => intro _; rfl
  | cons s rest ih =>
    intro h
    have hrest : ∀ x ∈ rest, settled x = true := fun x hx => h x (List.mem_cons_of_mem s hx)
    have hs : settled s = true := h s (List.mem_cons_self s rest)
    cases s with
    | ok r => simp [collectResponses, ih hrest, Except.map]
    | exc e =>
      cases e with
      | clientError ty2 m2 => simp [collectResponses, ih hrest, Except.map]
      | keyError m2 => simp [collectResponses, ih hrest, Except.map]
      | other ty2 m2 => simp [settled, isCaught] at hs

/-- A settlement that returned a result. -/
def isOkSettlement : Settlement → Bool
  | Settlement.ok _ => true
  | Settlement.exc _ => false

theorem length_okResults (S : List Settlement) :
    (okResults S).length = (S.filter isOkSettlement).length := by
  induction S with
  | nil => rfl
  | cons s rest ih =>
    cases s with
    | ok r => simp [okResults, isOkSettlement, List.filter] at ih ⊢; omega
    | exc e => simpa [okResults, isOkSettlement, List.filter] using ih

theorem length_caughtStrings (S : List Settlement) (h : ∀ s ∈ S, settled s = true) :
    (caughtStrings S).length = (S.filter (fun s => !isOkSettlement s)).length := by
  induction S with
  | nil => rfl
  | cons s rest ih =>
    have hrest : ∀ x ∈ rest, settled x = true := fun x hx => h x (List.mem_cons_of_mem s hx)
    have hs : settled s = true := h s (List.mem_cons_self s rest)
    cases s with
    | ok r => simpa [caughtStrings, isOkSettlement, List.filter, List.filterMap_cons] using ih hrest
    | exc e =>
      have hc : isCaught e = true := by simpa [settled] using hs
      simp [caughtStrings, isOkSettlement, List.filter, List.filterMap_cons, hc] at ih ⊢
      have := ih hrest
      omega

/-! ### Lemmas about `dictFromKeys` -/

theorem mem_dictFromKeysGo (x : String) :
    ∀ (l seen : List String), x ∈ dictFromKeysGo seen l ↔ x ∈ l ∧ x ∉ seen := by
  intro l
  induction l with
  | nil => intro seen; simp [dictFromKeysGo]
  | cons y ys ih =>
    intro seen
    by_cases hy : y ∈ seen
    · rw [dictFromKeysGo, if_pos hy, ih seen]
      constructor
      · rintro ⟨hx, hnx⟩
        exact ⟨List.mem_cons_of_mem y hx, hnx⟩
      · rintro ⟨hx, hnx⟩
        rcases List.mem_cons.mp hx with rfl | hx
        · exact absurd hy hnx
        · exact ⟨hx, hnx⟩
    · rw [dictFromKeysGo, if_neg hy]
      constructor
      · intro hmem
        rcases List.mem_cons.mp hmem with rfl | hmem
        · exact ⟨List.mem_cons_self x ys, hy⟩
        · rcases (ih (y :: seen)).mp hmem with ⟨hx, hnx⟩
          exact ⟨List.mem_cons_of_mem y hx,
            fun hc => hnx (List.mem_cons_of_mem y hc)⟩
      · rintro ⟨hx, hnx⟩
        rcases List.mem_cons.mp hx with rfl | hx
        · exact List.mem_cons_self x _
        · by_cases hxy : x = y
          · exact List.mem_cons.mpr (Or.inl hxy)
          · refine List.mem_cons_of_mem y ((ih (y :: seen)).mpr ⟨hx, ?_⟩)
            intro hc
            rcases List.mem_cons.mp hc with h | h
            · exact hxy h
            · exact hnx h

theorem nodup_dictFromKeysGo :
    ∀ (l seen : List String), (dictFromKeysGo seen l).Nodup := by
  intro l
  induction l with
  | nil => intro seen; simp [dictFromKeysGo]
  | cons y ys ih =>
    intro seen
    by_cases hy : y ∈ seen
    · simpa [dictFromKeysGo, if_pos hy] using ih seen
    · simp only [dictFromKeysGo, if_neg hy, List.nodup_cons]
      refine ⟨fun hc => ?_, ih (y :: seen)⟩
      have := (mem_dictFromKeysGo y ys (y :: seen)).mp hc
      simp at this

theorem mem_dictFromKeys (x : String) (l : List String) :
    x ∈ dictFromKeys l ↔ x ∈ l := by
  simpa [dictFromKeys] using mem_dictFromKeysGo x l []

theorem nodup_dictFromKeys (l : List String) : (dictFromKeys l).Nodup :=
  nodup_dictFromKeysGo l []

theorem pairwise_findIdx_dictFromKeysGo :
    ∀ (l seen : List String),
      (dictFromKeysGo seen l).Pairwise
        (fun x y => l.findIdx (· == x) < l.findIdx (· == y)) := by
  intro l
  induction l with
  | nil => intro seen; simp [dictFromKeysGo]
  | cons z zs ih =>
    intro seen
    have step : ∀ (s : List String) (x : String), x ∈ dictFromKeysGo s zs → x ∉ s :=
      fun s x hx => ((mem_dictFromKeysGo x zs s).mp hx).2
    by_cases hz : z ∈ seen
    · simp only [dictFromKeysGo, if_pos hz]
      refine (ih seen).imp_of_mem ?_
      intro a b ha hb hab
      have haz : (z == a) = false := beq_eq_false_iff_ne.mpr
        (fun h => (step seen a ha) (h ▸ hz))
      have hbz : (z == b) = false := beq_eq_false_iff_ne.mpr
        (fun h => (step seen b hb) (h ▸ hz))
      simp only [List.findIdx_cons, haz, hbz, cond_false]
      omega
    · simp only [dictFromKeysGo, if_neg hz, List.pairwise_cons]
      constructor
      · intro b hb
        have hbz : (z == b) = false := beq_eq_false_iff_ne.mpr fun h => by
          have := step (z :: seen) b hb
          simp [← h] at this
        simp only [List.findIdx_cons, beq_self_eq_true, cond_true, hbz, cond_false]
        omega
      · refine (ih (z :: seen)).imp_of_mem ?_
        intro a b ha hb hab
        have haz : (z == a) = false := beq_eq_false_iff_ne.mpr fun h => by
          have := step (z :: seen) a ha
          simp [← h] at this
        have hbz : (z == b) = false := beq_eq_false_iff_ne.mpr fun h => by
          have := step (z :: seen) b hb
          simp [← h] at this
        simp only [List.findIdx_cons, haz, hbz, cond_false]
        omega

theorem pairwise_findIdx_dictFromKeys (l : List String) :
    (dictFromKeys l).Pairwise
      (fun x y => l.findIdx (· == x) < l.findIdx (· == y)) :=
  pairwise_findIdx_dictFromKeysGo l []

/-! ### Lemmas about the task list -/

theorem length_platformQueries (us : List String) (ps : List Platform) :
    (platformQueries us ps).length = us.length * ps.length := by
  induction us with
  | nil => simp [platformQueries]
  | cons u us ih =>
    simp only [platformQueries, List.flatMap_cons, List.length_append, List.length_map,
      List.length_cons] at ih ⊢
    rw [ih, Nat.add_mul, Nat.one_mul, Nat.add_comm]

theorem mem_platformQueries (us : List String) (ps : List Platform) (q : String × Platform) :
    q ∈ platformQueries us ps ↔ q.1 ∈ us ∧ q.2 ∈ ps := by
  cases q with
  | mk u p =>
    simp only [platformQueries, List.mem_flatMap, List.mem_map, Prod.mk.injEq]
    constructor
    · rintro ⟨a, ha, b, hb, rfl, rfl⟩
      exact ⟨ha, hb⟩
    · rintro ⟨hu, hp⟩
      exact ⟨u, hu, p, hp, rfl, rfl⟩

theorem nodup_platformQueries (us : List String) (ps : List Platform)
    (hus : us.Nodup) (hps : ps.Nodup) : (platformQueries us ps).Nodup := by
  rw [platformQueries, List.nodup_flatMap]
  constructor
  · intro u _
    exact hps.map (fun a b h => by simpa using h)
  · refine hus.imp_of_mem ?_
    intro a b _ _ hab q hqa hqb
    simp only [List.mem_map] at hqa hqb
    rcases hqa with ⟨p1, _, rfl⟩
    rcases hqb with ⟨p2, _, heq⟩
    exact hab (by simpa using congrArg Prod.fst heq.symm)

/-! ### Lemmas about the two-pass presentation sort -/

theorem charListLe_refl : ∀ as : List Char, charListLe as as = true := by
  intro as
  induction as with
  | nil => rfl
  | cons a as ih => simp [charListLe, ih]

theorem filter_orderedInsert {α : Type} (r : α → α → Prop) [DecidableRel r] (p : α → Bool)
    (h2 : ∀ a b, p a = true → ¬ r a b → p b = false) :
    ∀ (a : α) (l : List α),
      (List.orderedInsert r a l).filter p =
        if p a then a :: l.filter p else l.filter p := by
  intro a l
  induction l with
  | nil =>
    rw [List.orderedInsert]
    cases hpa : p a <;> simp [List.filter_cons, hpa]
  | cons b l ih =>
    by_cases hr : r a b
    · rw [List.orderedInsert, if_pos hr]
      cases hpa : p a <;> simp [List.filter_cons, hpa]
    · rw [List.orderedInsert, if_neg hr]
      by_cases hpa : p a = true
      · have hpb : p b = false := h2 a b hpa hr
        simp [List.filter_cons, hpb, ih, hpa]
      · have hpa2 : p a = false := Bool.eq_false_iff.mpr hpa
        simp only [List.filter_cons, ih, hpa2, if_neg hpa]
        cases p b <;> simp

theorem filter_insertionSort {α : Type} (r : α → α → Prop) [DecidableRel r] (p : α → Bool)
    (h2 : ∀ a b, p a = true → ¬ r a b → p b = false) :
    ∀ l : List α, (List.insertionSort r l).filter p = l.filter p := by
  intro l
  induction l with
  | nil => rfl
  | cons a l ih =>
    rw [List.insertionSort, filter_orderedInsert r p h2, ih, List.filter_cons]

theorem pairwise_of_filter_pairwise {α : Type} (k : α → Nat) (R : α → α → Prop) :
    ∀ t : List α, (∀ c, (t.filter (fun x => k x == c)).Pairwise R) →
      t.Pairwise (fun a b => k a = k b → R a b) := by
  intro t
  induction t with
  | nil => intro _; exact List.Pairwise.nil
  | cons x xs ih =>
    intro h
    refine List.pairwise_cons.mpr ⟨?_, ?_⟩
    · intro b hb hkb
      have hfx := h (k x)
      rw [List.filter_cons, if_pos (by simp)] at hfx
      have hbmem : b ∈ xs.filter (fun y => k y == k x) :=
        List.mem_filter.mpr ⟨hb, by simp [hkb]⟩
      exact (List.pairwise_cons.mp hfx).1 b hbmem
    · refine ih ?_
      intro c
      by_cases hc : k x = c
      · have hfx := h c
        rw [List.filter_cons, if_pos (by simp [hc])] at hfx
        exact (List.pairwise_cons.mp hfx).2
      · have hfx := h c
        rwa [List.filter_cons, if_neg (by simp [hc])] at hfx

/-- The three presentation categories of lines 81-89: fully-successful available
results, successful taken results, failed results. -/
def categoryRank (r : QueryResult) : Nat :=
  if r.success then (if r.valid then 0 else 1) else 2

theorem validSuccessKey_eq_iff (a b : QueryResult) :
    validSuccessKey a = validSuccessKey b ↔ (a.valid = b.valid ∧ a.success = b.success) := by
  cases ha : a.valid <;> cases hb : b.valid <;>
    cases ha2 : a.success <;> cases hb2 : b.success <;>
      simp [validSuccessKey, ha, hb, ha2, hb2]

/-! ### Characterization of a successful run of `main` -/

/-- The retained results of a successful collection: the returned results that pass
the line-69 filter. -/
def retainedResults (ao : Bool) (S : List Settlement) : List QueryResult :=
  (okResults S).filter (retainResponse ao)

/-- The output of a run of `main` whose input-validation stages succeed and whose
settlements are all returned results or caught exceptions. -/
def expectedOutput (ns : Namespace) (cfg : RunConfig) (us0 : List String)
    (ps : List Platform) : RunOutput :=
  let usernames := dictFromKeys us0
  let queries := platformQueries usernames ps
  let completed := cfg.sched queries
  let S := completed.map cfg.settleOf
  { prefetched := if ns.cache_tokens then ps.map (fun p => (p, cfg.prefetch p)) else []
    queries := queries
    perUser := usernames.map fun u =>
      (u, sortResponses ((retainedResults ns.available_only S).filter
            fun r => r.username == u))
    exceptions := caughtStrings S
    summaryCount := queries.length
    trace :=
      (if ns.cache_tokens then ps.map Event.prefetchSettled else [])
        ++ queries.map Event.checkStarted ++ completed.map Event.checkSettled }

theorem main_eq_ok (allP : List Platform) (ns : Namespace) (cfg : RunConfig)
    (us0 : List String) (ps : List Platform)
    (husers : appendInputFile ns cfg.fileRead = Except.ok us0)
    (hne : us0 ≠ [])
    (hplat : selectPlatforms allP ns.restrict = Except.ok ps)
    (hsettle : ∀ q ∈ cfg.sched (platformQueries (dictFromKeys us0) ps),
        settled (cfg.settleOf q) = true) :
    main allP ns cfg = Except.ok (expectedOutput ns cfg us0 ps) := by
  have hS : ∀ s ∈ (cfg.sched (platformQueries (dictFromKeys us0) ps)).map cfg.settleOf,
      settled s = true := by
    intro s hs
    rcases List.mem_map.mp hs with ⟨q, hq, rfl⟩
    exact hsettle q hq
  have hemp : us0.isEmpty = false := by
    cases us0 with
    | nil => exact absurd rfl hne
    | cons a l => rfl
  rw [main, husers]
  simp only [hemp, Bool.false_eq_true, if_false, hplat,
    collectResponses_eq_of_settled _ _ hS]
  rfl

theorem mem_okResults (r : QueryResult) (S : List Settlement) :
    r ∈ okResults S ↔ Settlement.ok r ∈ S := by
  rw [okResults, List.mem_filterMap]
  constructor
  · rintro ⟨s, hs, hmatch⟩
    cases s with
    | ok r2 =>
      simp only [Option.some.injEq] at hmatch
      exact hmatch ▸ hs
    | exc e => simp at hmatch
  · intro h
    exact ⟨Settlement.ok r, h, rfl⟩

theorem sortResponses_perm (rs : List QueryResult) : (sortResponses rs).Perm rs :=
  (List.perm_insertionSort keyGe _).trans (List.perm_insertionSort nameLe rs)

/-- Grouping the elements of `l` by their username over a duplicate-free username
list covering every element is a permutation of `l`. -/
theorem flatMap_filter_username_perm :
    ∀ (us : List String) (l : List QueryResult), us.Nodup →
      (∀ r ∈ l, r.username ∈ us) →
      (us.flatMap fun u => l.filter fun r => r.username == u).Perm l := by
  intro us
  induction us with
  | nil =>
    intro l _ hall
    cases l with
    | nil => exact List.Perm.refl []
    | cons r l => exact absurd (hall r (List.mem_cons_self r l)) (by simp)
  | cons u us ih =>
    intro l hnu hall
    rw [List.flatMap_cons]
    have hrest : ∀ u2 ∈ us, (l.filter fun r => r.username == u2)
        = ((l.filter fun r => !(r.username == u)).filter fun r => r.username == u2) := by
      intro u2 hu2
      have hne : u2 ≠ u := fun h => (List.nodup_cons.mp hnu).1 (h ▸ hu2)
      rw [List.filter_filter]
      refine (List.filter_congr ?_).symm
      intro r _
      cases hru : r.username == u2 with
      | false => simp [hru]
      | true =>
        have : r.username = u2 := by simpa using hru
        simp [hru, this, hne]
    have hcongr : (us.flatMap fun u2 => l.filter fun r => r.username == u2)
        = us.flatMap fun u2 =>
            (l.filter fun r => !(r.username == u)).filter fun r => r.username == u2 := by
      refine List.flatMap_congr ?_
      intro u2 hu2
      exact hrest u2 hu2
    rw [hcongr]
    have hsub : ∀ r ∈ l.filter fun r => !(r.username == u), r.username ∈ us := by
      intro r hr
      rcases List.mem_filter.mp hr with ⟨hrl, hru⟩
      have := hall r hrl
      rcases List.mem_cons.mp this with h | h
      · simp [h] at hru
      · exact h
    have hih := ih (l.filter fun r => !(r.username == u)) (List.nodup_cons.mp hnu).2 hsub
    exact (List.Perm.append_left _ hih).trans (List.filter_append_perm _ l)

theorem find?_name_eq_self (pl : Platform) :
    ∀ allP : List Platform, (allP.map Platform.name).Nodup → pl ∈ allP →
      allP.find? (fun pl2 => pl2.name == pl.name) = some pl := by
  intro allP
  induction allP with
  | nil => intro _ h; exact absurd h (List.not_mem_nil pl)
  | cons a l ih =>
    intro hnod hmem
    rw [List.map_cons, List.nodup_cons] at hnod
    rcases List.mem_cons.mp hmem with rfl | hmem
    · exact List.find?_cons_of_pos _ (by simp)
    · have hna : a.name ≠ pl.name := by
        intro h
        exact hnod.1 (h ▸ List.mem_map_of_mem Platform.name hmem)
      rw [List.find?_cons_of_neg _ (by simpa using hna)]
      exact ih hnod.2 hmem

theorem lookupPlatform_error_of_unknown (allP : List Platform) (v : String)
    (hun : ∀ pl ∈ allP, pl.name ≠ pyUpper v) :
    lookupPlatform allP v =
      Except.error (PyError.valueError (v ++ " is not a valid platform")) := by
  rw [lookupPlatform]
  rw [List.find?_eq_none.mpr fun pl hpl => by simpa using hun pl hpl]

theorem resolveRestrict_error (allP : List Platform) :
    ∀ rs : List String, (∃ v ∈ rs, ∀ pl ∈ allP, pl.name ≠ pyUpper v) →
      ∃ bad, bad ∈ rs ∧ (∀ pl ∈ allP, pl.name ≠ pyUpper bad)
        ∧ resolveRestrict allP rs =
            Except.error (PyError.valueError (bad ++ " is not a valid platform")) := by
  intro rs
  induction rs with
  | nil => rintro ⟨v, hv, _⟩; exact absurd hv (List.not_mem_nil v)
  | cons s rest ih =>
    rintro ⟨v, hv, hbad⟩
    cases hl : lookupPlatform allP s with
    | error e =>
      cases hf : allP.find? (fun pl2 => pl2.name == pyUpper s) with
      | some pl2 =>
        rw [lookupPlatform, hf] at hl
        exact absurd hl (by simp)
      | none =>
        have he : e = PyError.valueError (s ++ " is not a valid platform") := by
          rw [lookupPlatform, hf] at hl
          injection hl with h
          exact h.symm
        have hsbad : ∀ pl ∈ allP, pl.name ≠ pyUpper s := by
          intro pl hpl h
          have := List.find?_eq_none.mp hf pl hpl
          simp [h] at this
        refine ⟨s, List.mem_cons_self s rest, hsbad, ?_⟩
        simp only [resolveRestrict, hl, he]
    | ok pl =>
      have hvs : v ≠ s := by
        intro h
        have h2 := lookupPlatform_error_of_unknown allP v hbad
        rw [h, hl] at h2
        simp at h2
      have hvrest : v ∈ rest := (List.mem_cons.mp hv).resolve_left hvs
      rcases ih ⟨v, hvrest, hbad⟩ with ⟨bad, hbmem, hbbad, hres⟩
      refine ⟨bad, List.mem_cons_of_mem s hbmem, hbbad, ?_⟩
      simp only [resolveRestrict, hl, hres]

/-- Any successful run's event trace consists of the prefetch settlements (when
token caching is on), then the check launches, then the check settlements. -/
theorem main_ok_trace (allP : List Platform) (ns : Namespace) (cfg : RunConfig)
    (out : RunOutput) (hmain : main allP ns cfg = Except.ok out) :
    ∃ (ps : List Platform) (qs cs : List (String × Platform)),
      out.trace = (if ns.cache_tokens then ps.map Event.prefetchSettled else [])
        ++ qs.map Event.checkStarted ++ cs.map Event.checkSettled := by
  rw [main] at hmain
  cases ha : appendInputFile ns cfg.fileRead with
  | error e => rw [ha] at hmain; simp at hmain
  | ok us0 =>
    rw [ha] at hmain
    simp only [] at hmain
    by_cases hemp : us0.isEmpty = true
    · rw [if_pos hemp] at hmain; simp at hmain
    · rw [if_neg hemp] at hmain
      cases hp : selectPlatforms allP ns.restrict with
      | error e => rw [hp] at hmain; simp at hmain
      | ok ps =>
        rw [hp] at hmain
        simp only [] at hmain
        cases hc : collectResponses ns.available_only
            ((cfg.sched (platformQueries (dictFromKeys us0) ps)).map cfg.settleOf) with
        | error e => rw [hc] at hmain; simp at hmain
        | ok pr =>
          rcases pr with ⟨retained, exceptions⟩
          rw [hc] at hmain
          simp only [Except.ok.injEq] at hmain
          refine ⟨ps, platformQueries (dictFromKeys us0) ps,
            cfg.sched (platformQueries (dictFromKeys us0) ps), ?_⟩
          rw [← hmain]

/-- In a list made of a prefetch segment followed by check segments, every
prefetch-settlement index precedes every check-launch index. -/
theorem prefetch_before_check_in_segments (A B : List Event)
    (hA : ∀ e ∈ A, isCheckStartEvent e = false)
    (hB : ∀ e ∈ B, isPrefetchEvent e = false) :
    ∀ i j (hi : i < (A ++ B).length) (hj : j < (A ++ B).length),
      isPrefetchEvent ((A ++ B)[i]) = true →
      isCheckStartEvent ((A ++ B)[j]) = true → i < j := by
  intro i j hi hj hpi hcj
  by_cases hiA : i < A.length
  · by_cases hjA : j < A.length
    · rw [List.getElem_append_left hjA] at hcj
      have := hA (A[j]) (List.getElem_mem hjA)
      rw [this] at hcj
      exact absurd hcj (by simp)
    · omega
  · have hge : A.length ≤ i := Nat.le_of_not_lt hiA
    rw [List.getElem_append_right hge] at hpi
    have hlt : i - A.length < B.length := by
      rw [List.length_append] at hi
      omega
    have := hB (B[i - A.length]) (List.getElem_mem hlt)
    rw [this] at hpi
    exact absurd hpi (by simp)

/-! ### Claim theorems -/

/-- C4: for every input username list, the list actually queried
(`list(dict.fromkeys(usernames))`, line 56) is deduplicated — each username of the
input appears exactly once — and the surviving occurrences keep the insertion
order of their first appearance in the combined input; `main` issues its queries
over exactly this deduplicated list. -/
theorem claim4_dedup_keeps_first_occurrence_order (l : List String) :
    (dictFromKeys l).Nodup
    ∧ (∀ x, x ∈ dictFromKeys l ↔ x ∈ l)
    ∧ (∀ x ∈ l, List.count x (dictFromKeys l) = 1)
    ∧ (dictFromKeys l).Pairwise
        (fun x y => l.findIdx (· == x) < l.findIdx (· == y))
    ∧ ∀ (allP : List Platform) (ns : Namespace) (cfg : RunConfig) (ps : List Platform),
        appendInputFile ns cfg.fileRead = Except.ok l → l ≠ [] →
        selectPlatforms allP ns.restrict = Except.ok ps →
        (∀ q ∈ cfg.sched (platformQueries (dictFromKeys l) ps),
          settled (cfg.settleOf q) = true) →
        (main allP ns cfg).map RunOutput.queries =
          Except.ok (platformQueries (dictFromKeys l) ps) := by
  refine ⟨nodup_dictFromKeys l, fun x => mem_dictFromKeys x l, ?_,
    pairwise_findIdx_dictFromKeys l, ?_⟩
  · intro x hx
    exact List.count_eq_one_of_mem (nodup_dictFromKeys l)
      ((mem_dictFromKeys x l).mpr hx)
  · intro allP ns cfg ps husers hne hplat hsettle
    rw [main_eq_ok allP ns cfg l ps husers hne hplat hsettle]
    rfl

/-- Witness for C4 at a concrete input: the duplicated list
`["alice", "bob", "alice"]` dedups to `["alice", "bob"]`. -/
theorem claim4_witness :
    dictFromKeys ["alice", "bob", "alice"] = ["alice", "bob"]
    ∧ (dictFromKeys ["alice", "bob", "alice"]).Nodup :=
  ⟨by decide, (claim4_dedup_keeps_first_occurrence_order ["alice", "bob", "alice"]).1⟩

/-- C2: after the two-pass presentation sort of lines 79-80, for result lists whose
entries come from the checker (`valid` implies `success`, per the spec there is no
valid-but-failed result — `util.is_username_available` is not under `src/`) and
whose platform names are the upper-case registry names, every available-and-successful
result precedes every taken-and-successful result, which precedes every failed
result; within each group of equal `(valid, success)` the case-normalized platform
names ascend; and the sort is stable for fully equal keys. -/
theorem claim2_sort_law (rs : List QueryResult)
    (hvs : ∀ r ∈ rs, r.valid = true → r.success = true)
    (hup : ∀ r ∈ rs, pyUpper r.platform.name = r.platform.name) :
    (sortResponses rs).Pairwise (fun a b => categoryRank a ≤ categoryRank b)
    ∧ (sortResponses rs).Pairwise (fun a b =>
        (a.valid = b.valid ∧ a.success = b.success) →
          pyStrLe (pyUpper a.platform.name) (pyUpper b.platform.name) = true)
    ∧ ∀ (v b : Bool) (n : String),
        (sortResponses rs).filter
            (fun r => r.valid == v && r.success == b && r.platform.name == n)
          = rs.filter
              (fun r => r.valid == v && r.success == b && r.platform.name == n) := by
  classical
  set s := List.insertionSort nameLe rs with hs_def
  have hmem_s : ∀ x ∈ s, x ∈ rs := fun x hx =>
    (List.perm_insertionSort nameLe rs).subset hx
  have hmem_t : ∀ x ∈ sortResponses rs, x ∈ rs := fun x hx =>
    hmem_s x ((List.perm_insertionSort keyGe s).subset hx)
  have ht2 : (sortResponses rs).Pairwise keyGe :=
    List.sorted_insertionSort keyGe s
  have hs1 : s.Pairwise nameLe :=
    List.sorted_insertionSort nameLe rs
  refine ⟨?_, ?_, ?_⟩
  · refine ht2.imp_of_mem ?_
    intro a b ha hb hab
    have hva := hvs a (hmem_t a ha)
    have hvb := hvs b (hmem_t b hb)
    cases hav : a.valid <;> cases has : a.success <;>
      cases hbv : b.valid <;> cases hbs : b.success <;>
        simp_all [keyGe, validSuccessKey, categoryRank]
  · have hstab2 : ∀ c, (sortResponses rs).filter (fun x => validSuccessKey x == c)
        = s.filter (fun x => validSuccessKey x == c) := by
      intro c
      refine filter_insertionSort keyGe _ ?_ s
      intro a b hpa hr
      rw [Bool.eq_false_iff]
      intro hpb
      simp only [beq_iff_eq] at hpa hpb
      exact hr (by rw [keyGe, hpa, hpb])
    have hfil : ∀ c, ((sortResponses rs).filter
        (fun x => validSuccessKey x == c)).Pairwise nameLe := by
      intro c
      rw [hstab2 c]
      exact hs1.filter _
    have hpair := pairwise_of_filter_pairwise validSuccessKey nameLe
      (sortResponses rs) hfil
    refine hpair.imp_of_mem ?_
    intro a b ha hb hab hkeys
    have hk : validSuccessKey a = validSuccessKey b :=
      (validSuccessKey_eq_iff a b).mpr hkeys
    have := hab hk
    rw [hup a (hmem_t a ha), hup b (hmem_t b hb)]
    exact this
  · intro v b n
    have h2a : ∀ a b_ : QueryResult,
        (a.valid == v && a.success == b && a.platform.name == n) = true →
        ¬ keyGe a b_ →
        (b_.valid == v && b_.success == b && b_.platform.name == n) = false := by
      intro a b_ hpa hr
      rw [Bool.eq_false_iff]
      intro hpb
      simp only [Bool.and_eq_true, beq_iff_eq] at hpa hpb
      exact hr (by rw [keyGe, validSuccessKey, validSuccessKey,
        hpa.1.1, hpa.1.2, hpb.1.1, hpb.1.2])
    have h2b : ∀ a b_ : QueryResult,
        (a.valid == v && a.success == b && a.platform.name == n) = true →
        ¬ nameLe a b_ →
        (b_.valid == v && b_.success == b && b_.platform.name == n) = false := by
      intro a b_ hpa hr
      rw [Bool.eq_false_iff]
      intro hpb
      simp only [Bool.and_eq_true, beq_iff_eq] at hpa hpb
      refine hr ?_
      rw [nameLe, pyStrLe, hpa.2, hpb.2]
      exact charListLe_refl n.data
    rw [sortResponses, filter_insertionSort keyGe _ h2a,
      filter_insertionSort nameLe _ h2b]

/-- Witness for C2 at a concrete result list containing an available, a taken and a
failed result in scrambled order with a duplicated full key. -/
theorem claim2_witness :
    (∀ r ∈ [QueryResult.mk "a" (Platform.mk "TWITTER") false true "t",
            QueryResult.mk "a" (Platform.mk "GITHUB") false false "f",
            QueryResult.mk "a" (Platform.mk "GITHUB") false true "t2",
            QueryResult.mk "a" (Platform.mk "REDDIT") true true "av"],
        r.valid = true → r.success = true)
    ∧ (sortResponses [QueryResult.mk "a" (Platform.mk "TWITTER") false true "t",
            QueryResult.mk "a" (Platform.mk "GITHUB") false false "f",
            QueryResult.mk "a" (Platform.mk "GITHUB") false true "t2",
            QueryResult.mk "a" (Platform.mk "REDDIT") true true "av"]).Pairwise
        (fun a b => categoryRank a ≤ categoryRank b) :=
  ⟨by decide,
    (claim2_sort_law _ (by decide) (by decide)).1⟩

/-- C1: for every run over a non-empty deduplicated username list and a non-empty
platform list, if every availability-check coroutine settles with a `QueryResult`
or a caught exception (`aiohttp.ClientError` or `KeyError`), the collection loop
of lines 66-73 — iterating the tasks in an arbitrary completion order `cs` — ends
normally, and the tasks whose settlement is a result together with the tasks whose
settlement is a recorded exception partition the task list: their counts add up to
`|usernames| * |platforms|`, the task list has no duplicates, each recorded
exception corresponds to one failed task, and (without the `--available-only`
filter) each retained result corresponds to one returned task. -/
theorem claim1_one_outcome_per_task (us : List String) (ps : List Platform)
    (hus : us ≠ []) (hps : ps ≠ []) (hnu : us.Nodup) (hnp : ps.Nodup)
    (settleOf : String × Platform → Settlement) (cs : List (String × Platform))
    (hperm : cs.Perm (platformQueries us ps))
    (hsettle : ∀ q ∈ cs, settled (settleOf q) = true) (ao : Bool) :
    collectResponses ao (cs.map settleOf) =
        Except.ok (retainedResults ao (cs.map settleOf), caughtStrings (cs.map settleOf))
    ∧ (cs.filter fun q => isOkSettlement (settleOf q)).length
        + (cs.filter fun q => !isOkSettlement (settleOf q)).length
        = us.length * ps.length
    ∧ ((cs.filter fun q => isOkSettlement (settleOf q))
        ++ cs.filter fun q => !isOkSettlement (settleOf q)).Perm
        (platformQueries us ps)
    ∧ (platformQueries us ps).Nodup
    ∧ (caughtStrings (cs.map settleOf)).length
        = (cs.filter fun q => !isOkSettlement (settleOf q)).length
    ∧ (ao = false →
        (retainedResults ao (cs.map settleOf)).length
          = (cs.filter fun q => isOkSettlement (settleOf q)).length) := by
  have hS : ∀ s ∈ cs.map settleOf, settled s = true := by
    intro s hsm
    rcases List.mem_map.mp hsm with ⟨q, hq, rfl⟩
    exact hsettle q hq
  have hpartition :
      ((cs.filter fun q => isOkSettlement (settleOf q))
        ++ cs.filter fun q => !isOkSettlement (settleOf q)).Perm
        (platformQueries us ps) :=
    (List.filter_append_perm _ cs).trans hperm
  have hfilter_ok : (cs.map settleOf).filter isOkSettlement
      = (cs.filter fun q => isOkSettlement (settleOf q)).map settleOf := by
    simpa [Function.comp] using List.filter_map settleOf cs
  have hfilter_not : (cs.map settleOf).filter (fun s => !isOkSettlement s)
      = (cs.filter fun q => !isOkSettlement (settleOf q)).map settleOf := by
    simpa [Function.comp] using List.filter_map settleOf cs
  refine ⟨collectResponses_eq_of_settled ao (cs.map settleOf) hS, ?_, hpartition,
    nodup_platformQueries us ps hnu hnp, ?_, ?_⟩
  · have := hpartition.length_eq
    rw [List.length_append] at this
    rw [this, length_platformQueries]
  · rw [length_caughtStrings (cs.map settleOf) hS, hfilter_not, List.length_map]
  · intro hao
    subst hao
    have hall : (okResults (cs.map settleOf)).filter (retainResponse false)
        = okResults (cs.map settleOf) :=
      List.filter_eq_self.mpr fun r _ => by simp [retainResponse]
    rw [retainedResults, hall, length_okResults, hfilter_ok, List.length_map]

/-- Witness for C1: two usernames, two platforms, one task failing with a caught
`KeyError`, processed in reversed completion order — three results plus one
recorded exception cover the four tasks. -/
theorem claim1_witness :
    (["alice", "bob"] : List String) ≠ []
    ∧ ([Platform.mk "GITHUB", Platform.mk "TWITTER"] : List Platform) ≠ []
    ∧ (collectResponses false
        (((platformQueries ["alice", "bob"]
            [Platform.mk "GITHUB", Platform.mk "TWITTER"]).reverse).map
          fun q =>
            if q = ("bob", Platform.mk "GITHUB") then
              Settlement.exc (ExcKind.keyError "token")
            else Settlement.ok (QueryResult.mk q.1 q.2 true true "ok"))).isOk = true := by
  refine ⟨by decide, by decide, ?_⟩
  have h := claim1_one_outcome_per_task ["alice", "bob"]
    [Platform.mk "GITHUB", Platform.mk "TWITTER"] (by decide) (by decide)
    (by decide) (by decide)
    (fun q =>
      if q = ("bob", Platform.mk "GITHUB") then
        Settlement.exc (ExcKind.keyError "token")
      else Settlement.ok (QueryResult.mk q.1 q.2 true true "ok"))
    ((platformQueries ["alice", "bob"]
        [Platform.mk "GITHUB", Platform.mk "TWITTER"]).reverse)
    (List.reverse_perm _) (by decide) false
  rw [h.1]
  rfl

/-- C3: under the line-69 filter, with `--available-only` set every aggregated
result has `valid = true` and the retained results are exactly the returned
results with `valid = true`; with the flag unset every returned result is
retained; and in both cases every deduplicated input username is emitted, in
original input order, with an empty list rather than an omitted entry when
nothing survives. -/
theorem claim3_available_only_filter (allP : List Platform) (ns : Namespace)
    (cfg : RunConfig) (us0 : List String) (ps : List Platform)
    (husers : appendInputFile ns cfg.fileRead = Except.ok us0)
    (hne : us0 ≠ [])
    (hplat : selectPlatforms allP ns.restrict = Except.ok ps)
    (hsched : (cfg.sched (platformQueries (dictFromKeys us0) ps)).Perm
        (platformQueries (dictFromKeys us0) ps))
    (hsettle : ∀ q ∈ cfg.sched (platformQueries (dictFromKeys us0) ps),
        settled (cfg.settleOf q) = true)
    (husr : ∀ (q : String × Platform) (r : QueryResult),
        cfg.settleOf q = Settlement.ok r → r.username = q.1) :
    main allP ns cfg = Except.ok (expectedOutput ns cfg us0 ps)
    ∧ (expectedOutput ns cfg us0 ps).perUser.map Prod.fst = dictFromKeys us0
    ∧ (ns.available_only = true →
        ∀ p ∈ (expectedOutput ns cfg us0 ps).perUser, ∀ r ∈ p.2, r.valid = true)
    ∧ (ns.available_only = true →
        ((expectedOutput ns cfg us0 ps).perUser.flatMap Prod.snd).Perm
          ((okResults ((cfg.sched (platformQueries (dictFromKeys us0) ps)).map
              cfg.settleOf)).filter fun r => r.valid))
    ∧ (ns.available_only = false →
        ((expectedOutput ns cfg us0 ps).perUser.flatMap Prod.snd).Perm
          (okResults ((cfg.sched (platformQueries (dictFromKeys us0) ps)).map
            cfg.settleOf))) := by
  set S := (cfg.sched (platformQueries (dictFromKeys us0) ps)).map cfg.settleOf with hSdef
  have hallusr : ∀ r ∈ okResults S, r.username ∈ dictFromKeys us0 := by
    intro r hr
    have hmem := (mem_okResults r S).mp hr
    rw [hSdef] at hmem
    rcases List.mem_map.mp hmem with ⟨q, hq, hset⟩
    have hqq := hsched.subset hq
    have := (mem_platformQueries _ _ q).mp hqq
    rw [husr q r hset]
    exact this.1
  have hflat : ∀ ao : Bool,
      ((expectedOutput ns cfg us0 ps).perUser.flatMap Prod.snd).Perm
        (retainedResults ns.available_only S) := by
    intro ao
    have h1 : (expectedOutput ns cfg us0 ps).perUser.flatMap Prod.snd
        = (dictFromKeys us0).flatMap fun u =>
            sortResponses ((retainedResults ns.available_only S).filter
              fun r => r.username == u) := by
      rw [expectedOutput]
      rw [List.flatMap_map]
    rw [h1]
    have h2 : ((dictFromKeys us0).flatMap fun u =>
        sortResponses ((retainedResults ns.available_only S).filter
          fun r => r.username == u)).Perm
        ((dictFromKeys us0).flatMap fun u =>
          (retainedResults ns.available_only S).filter fun r => r.username == u) :=
      List.Perm.flatMap_left _ fun u _ => sortResponses_perm _
    refine h2.trans ?_
    refine flatMap_filter_username_perm (dictFromKeys us0) _ (nodup_dictFromKeys us0) ?_
    intro r hr
    have : r ∈ okResults S := (List.mem_filter.mp hr).1
    exact hallusr r this
  refine ⟨main_eq_ok allP ns cfg us0 ps husers hne hplat hsettle, ?_, ?_, ?_, ?_⟩
  · rw [expectedOutput]
    simp only [List.map_map]
    exact List.map_id _
  · intro hao p hp r hr
    rw [expectedOutput] at hp
    simp only [List.mem_map] at hp
    rcases hp with ⟨u, hu, rfl⟩
    have hr2 : r ∈ (retainedResults ns.available_only S).filter
        fun r => r.username == u := (sortResponses_perm _).subset hr
    have hr3 : r ∈ retainedResults ns.available_only S := (List.mem_filter.mp hr2).1
    have hr4 := (List.mem_filter.mp hr3).2
    rw [hao] at hr4
    simpa [retainResponse] using hr4
  · intro hao
    refine (hflat true).trans ?_
    rw [retainedResults, hao]
    refine List.Perm.of_eq (List.filter_congr ?_)
    intro r _
    simp [retainResponse]
  · intro hao
    refine (hflat false).trans ?_
    rw [retainedResults, hao]
    refine List.Perm.of_eq ?_
    exact List.filter_eq_self.mpr fun r _ => by simp [retainResponse]

/-- Witness for C3: a run with `--available-only` where the single username has no
available platform still yields an entry with an empty result list. -/
theorem claim3_witness :
    (main [Platform.mk "GITHUB"]
        (Namespace.mk ["alice"] none none false true)
        (RunConfig.mk (fun _ => none) (fun _ => TokenFetch.fetched "t")
          (fun q => Settlement.ok (QueryResult.mk q.1 q.2 false true "taken"))
          (fun l => l))).map RunOutput.perUser
      = Except.ok [("alice", [])] := by
  have h := claim3_available_only_filter [Platform.mk "GITHUB"]
    (Namespace.mk ["alice"] none none false true)
    (RunConfig.mk (fun _ => none) (fun _ => TokenFetch.fetched "t")
      (fun q => Settlement.ok (QueryResult.mk q.1 q.2 false true "taken"))
      (fun l => l))
    ["alice"] [Platform.mk "GITHUB"] rfl (by decide) rfl (List.Perm.refl _)
    (by decide) (fun q r hqr => by
      injection hqr with h
      rw [← h])
  rw [h.1]
  rfl

/-- C5: platform lookup for the `--restrict` list upper-cases the given name and
looks it up among the registered member names (lines 50-53), so every case variant
of a registered name resolves to that platform (registry names are upper-case and
unique, modelled from the spec since `platforms.py` is not under `src/`); and a
name matching no platform makes `main` raise `ValueError` — the same error for
every network collaborator, i.e. before any HTTP session or request. -/
theorem claim5_restrict_validation (allP : List Platform)
    (hnod : (allP.map Platform.name).Nodup)
    (hupper : ∀ pl ∈ allP, pyUpper pl.name = pl.name) :
    (∀ pl ∈ allP, ∀ v : String, pyUpper v = pyUpper pl.name →
        lookupPlatform allP v = Except.ok pl)
    ∧ ∀ (ns : Namespace) (cfg : RunConfig) (us0 : List String) (rs : List String)
        (v : String),
        appendInputFile ns cfg.fileRead = Except.ok us0 → us0 ≠ [] →
        ns.restrict = some rs → v ∈ rs →
        (∀ pl ∈ allP, pl.name ≠ pyUpper v) →
        ∃ bad, bad ∈ rs
          ∧ main allP ns cfg =
              Except.error (PyError.valueError (bad ++ " is not a valid platform"))
          ∧ ∀ (pf : Platform → TokenFetch) (st : String × Platform → Settlement)
              (sc : List (String × Platform) → List (String × Platform)),
              main allP ns (RunConfig.mk cfg.fileRead pf st sc) =
                Except.error (PyError.valueError (bad ++ " is not a valid platform")) := by
  constructor
  · intro pl hpl v hv
    rw [lookupPlatform, hv, hupper pl hpl, find?_name_eq_self pl allP hnod hpl]
  · intro ns cfg us0 rs v husers hne hrs hv hbad
    rcases resolveRestrict_error allP rs ⟨v, hv, hbad⟩ with ⟨bad, hbmem, _, hres⟩
    have hrsne : rs.isEmpty = false := by
      cases rs with
      | nil => exact absurd hv (List.not_mem_nil v)
      | cons a l => rfl
    have hsel : selectPlatforms allP ns.restrict =
        Except.error (PyError.valueError (bad ++ " is not a valid platform")) := by
      rw [hrs, selectPlatforms, if_neg (by simp [hrsne])]
      exact hres
    have hemp : us0.isEmpty = false := by
      cases us0 with
      | nil => exact absurd rfl hne
      | cons a l => rfl
    refine ⟨bad, hbmem, ?_, ?_⟩
    · rw [main, husers]
      simp only [hemp, Bool.false_eq_true, if_false, hsel]
    · intro pf st sc
      have husers2 : appendInputFile ns (RunConfig.mk cfg.fileRead pf st sc).fileRead
          = Except.ok us0 := husers
      rw [main, husers2]
      simp only [hemp, Bool.false_eq_true, if_false, hsel]

/-- Witness for C5: on a two-platform registry, the case variant `"gItHuB"`
resolves to GITHUB, and restricting to the unknown `"reddit"` makes the run fail
with the `ValueError` of line 53 for every network collaborator. -/
theorem claim5_witness :
    lookupPlatform [Platform.mk "GITHUB", Platform.mk "TWITTER"] "gItHuB"
      = Except.ok (Platform.mk "GITHUB")
    ∧ ∃ bad, bad ∈ ["reddit"]
        ∧ main [Platform.mk "GITHUB", Platform.mk "TWITTER"]
            (Namespace.mk ["alice"] (some ["reddit"]) none false false)
            (RunConfig.mk (fun _ => none) (fun _ => TokenFetch.fetched "t")
              (fun q => Settlement.ok (QueryResult.mk q.1 q.2 true true "m"))
              (fun l => l)) =
          Except.error (PyError.valueError ("reddit" ++ " is not a valid platform"))
        ∧ ∀ (pf : Platform → TokenFetch) (st : String × Platform → Settlement)
            (sc : List (String × Platform) → List (String × Platform)),
            main [Platform.mk "GITHUB", Platform.mk "TWITTER"]
              (Namespace.mk ["alice"] (some ["reddit"]) none false false)
              (RunConfig.mk (fun _ => none) pf st sc) =
            Except.error (PyError.valueError ("reddit" ++ " is not a valid platform")) := by
  have h := claim5_restrict_validation [Platform.mk "GITHUB", Platform.mk "TWITTER"]
    (by decide) (by decide)
  refine ⟨h.1 (Platform.mk "GITHUB") (by decide) "gItHuB" (by decide), ?_⟩
  rcases h.2 (Namespace.mk ["alice"] (some ["reddit"]) none false false)
      (RunConfig.mk (fun _ => none) (fun _ => TokenFetch.fetched "t")
        (fun q => Settlement.ok (QueryResult.mk q.1 q.2 true true "m"))
        (fun l => l))
      ["alice"] ["reddit"] "reddit" rfl (by decide) rfl (by decide) (by decide)
    with ⟨bad, hbmem, hmain, hall⟩
  have hbadeq : bad = "reddit" := by
    rcases List.mem_cons.mp hbmem with h | h
    · exact h
    · exact absurd h (List.not_mem_nil bad)
  subst hbadeq
  exact ⟨"reddit", hbmem, hmain, hall⟩

/-- C6: the token-prefetch phase (lines 59-62) is independent per platform —
`prerequest` is modelled from the spec as settling with a fetched token or a
recorded failure (it is not under `src/`, and spec section 4.2 requires a failure
not to abort the run).  For every pattern of per-platform outcomes `pf`, the run
still completes, the prefetch settles for every selected platform, and the
availability-check phase (queries, per-user results, recorded exceptions) is the
same as under any other outcome pattern. -/
theorem claim6_prefetch_independence (allP : List Platform) (ns : Namespace)
    (cfg : RunConfig) (us0 : List String) (ps : List Platform)
    (hcache : ns.cache_tokens = true)
    (husers : appendInputFile ns cfg.fileRead = Except.ok us0)
    (hne : us0 ≠ [])
    (hplat : selectPlatforms allP ns.restrict = Except.ok ps)
    (hsettle : ∀ q ∈ cfg.sched (platformQueries (dictFromKeys us0) ps),
        settled (cfg.settleOf q) = true) :
    ∀ pf : Platform → TokenFetch,
      main allP ns (RunConfig.mk cfg.fileRead pf cfg.settleOf cfg.sched) =
          Except.ok (expectedOutput ns
            (RunConfig.mk cfg.fileRead pf cfg.settleOf cfg.sched) us0 ps)
      ∧ (expectedOutput ns
            (RunConfig.mk cfg.fileRead pf cfg.settleOf cfg.sched) us0 ps).prefetched
          = ps.map (fun p => (p, pf p))
      ∧ (expectedOutput ns
            (RunConfig.mk cfg.fileRead pf cfg.settleOf cfg.sched) us0 ps).queries
          = (expectedOutput ns cfg us0 ps).queries
      ∧ (expectedOutput ns
            (RunConfig.mk cfg.fileRead pf cfg.settleOf cfg.sched) us0 ps).perUser
          = (expectedOutput ns cfg us0 ps).perUser
      ∧ (expectedOutput ns
            (RunConfig.mk cfg.fileRead pf cfg.settleOf cfg.sched) us0 ps).exceptions
          = (expectedOutput ns cfg us0 ps).exceptions := by
  intro pf
  refine ⟨main_eq_ok allP ns (RunConfig.mk cfg.fileRead pf cfg.settleOf cfg.sched)
      us0 ps husers hne hplat hsettle, ?_, rfl, rfl, rfl⟩
  rw [expectedOutput]
  simp only [hcache, if_true]

/-- Witness for C6: a two-platform cached run where one platform's token fetch
fails still records both prefetch outcomes and runs all four checks. -/
theorem claim6_witness :
    main [Platform.mk "GITHUB", Platform.mk "TWITTER"]
        (Namespace.mk ["alice"] none none true false)
        (RunConfig.mk (fun _ => none)
          (fun p => if p = Platform.mk "GITHUB" then TokenFetch.failed "timeout"
            else TokenFetch.fetched "tok")
          (fun q => Settlement.ok (QueryResult.mk q.1 q.2 true true "m"))
          (fun l => l)) =
      Except.ok (expectedOutput (Namespace.mk ["alice"] none none true false)
        (RunConfig.mk (fun _ => none)
          (fun p => if p = Platform.mk "GITHUB" then TokenFetch.failed "timeout"
            else TokenFetch.fetched "tok")
          (fun q => Settlement.ok (QueryResult.mk q.1 q.2 true true "m"))
          (fun l => l))
        ["alice"] [Platform.mk "GITHUB", Platform.mk "TWITTER"])
    ∧ (expectedOutput (Namespace.mk ["alice"] none none true false)
        (RunConfig.mk (fun _ => none)
          (fun p => if p = Platform.mk "GITHUB" then TokenFetch.failed "timeout"
            else TokenFetch.fetched "tok")
          (fun q => Settlement.ok (QueryResult.mk q.1 q.2 true true "m"))
          (fun l => l))
        ["alice"] [Platform.mk "GITHUB", Platform.mk "TWITTER"]).prefetched
      = [(Platform.mk "GITHUB", TokenFetch.failed "timeout"),
         (Platform.mk "TWITTER", TokenFetch.fetched "tok")] := by
  have h := claim6_prefetch_independence
    [Platform.mk "GITHUB", Platform.mk "TWITTER"]
    (Namespace.mk ["alice"] none none true false)
    (RunConfig.mk (fun _ => none)
      (fun p => if p = Platform.mk "GITHUB" then TokenFetch.failed "timeout"
        else TokenFetch.fetched "tok")
      (fun q => Settlement.ok (QueryResult.mk q.1 q.2 true true "m"))
      (fun l => l))
    ["alice"] [Platform.mk "GITHUB", Platform.mk "TWITTER"]
    rfl rfl (by decide) rfl (by decide)
    (fun p => if p = Platform.mk "GITHUB" then TokenFetch.failed "timeout"
      else TokenFetch.fetched "tok")
  exact ⟨h.1, by rw [h.2.1]; rfl⟩

/-- C8: when token caching is enabled, every prefetch-settlement event in a
successful run's trace precedes every check-launch event: the `await
asyncio.gather` of line 61 resolves all prefetches before line 63 creates and
line 66 schedules any availability-check coroutine. -/
theorem claim8_prefetch_barrier_before_checks (allP : List Platform) (ns : Namespace)
    (cfg : RunConfig) (out : RunOutput)
    (hcache : ns.cache_tokens = true)
    (hmain : main allP ns cfg = Except.ok out) :
    ∀ i j (hi : i < out.trace.length) (hj : j < out.trace.length),
      isPrefetchEvent (out.trace[i]) = true →
      isCheckStartEvent (out.trace[j]) = true → i < j := by
  rcases main_ok_trace allP ns cfg out hmain with ⟨ps, qs, cs, htr⟩
  simp only [hcache, eq_self_iff_true, if_true] at htr
  rw [List.append_assoc] at htr
  rw [htr]
  refine prefetch_before_check_in_segments _ _ ?_ ?_
  · intro e he
    rcases List.mem_map.mp he with ⟨p, _, rfl⟩
    rfl
  · intro e he
    rcases List.mem_append.mp he with h | h
    · rcases List.mem_map.mp h with ⟨q, _, rfl⟩
      rfl
    · rcases List.mem_map.mp h with ⟨q, _, rfl⟩
      rfl

/-- Witness for C8: in the concrete cached run over one username and two
platforms, trace index 0 is a prefetch settlement, index 2 is a check launch, and
the theorem places 0 before 2. -/
theorem claim8_witness :
    Namespace.cache_tokens (Namespace.mk ["alice"] none none true false) = true
    ∧ isPrefetchEvent ((expectedOutput (Namespace.mk ["alice"] none none true false)
        (RunConfig.mk (fun _ => none) (fun _ => TokenFetch.fetched "tok")
          (fun q => Settlement.ok (QueryResult.mk q.1 q.2 true true "m"))
          (fun l => l.reverse))
        ["alice"] [Platform.mk "GITHUB", Platform.mk "TWITTER"]).trace.get
          ⟨0, by decide⟩) = true
    ∧ isCheckStartEvent ((expectedOutput (Namespace.mk ["alice"] none none true false)
        (RunConfig.mk (fun _ => none) (fun _ => TokenFetch.fetched "tok")
          (fun q => Settlement.ok (QueryResult.mk q.1 q.2 true true "m"))
          (fun l => l.reverse))
        ["alice"] [Platform.mk "GITHUB", Platform.mk "TWITTER"]).trace.get
          ⟨2, by decide⟩) = true
    ∧ (0 : Nat) < 2 :=
  ⟨rfl, by decide, by decide,
    claim8_prefetch_barrier_before_checks
      [Platform.mk "GITHUB", Platform.mk "TWITTER"]
      (Namespace.mk ["alice"] none none true false)
      (RunConfig.mk (fun _ => none) (fun _ => TokenFetch.fetched "tok")
        (fun q => Settlement.ok (QueryResult.mk q.1 q.2 true true "m"))
        (fun l => l.reverse))
      (expectedOutput (Namespace.mk ["alice"] none none true false)
        (RunConfig.mk (fun _ => none) (fun _ => TokenFetch.fetched "tok")
          (fun q => Settlement.ok (QueryResult.mk q.1 q.2 true true "m"))
          (fun l => l.reverse))
        ["alice"] [Platform.mk "GITHUB", Platform.mk "TWITTER"])
      rfl
      (main_eq_ok [Platform.mk "GITHUB", Platform.mk "TWITTER"]
        (Namespace.mk ["alice"] none none true false)
        (RunConfig.mk (fun _ => none) (fun _ => TokenFetch.fetched "tok")
          (fun q => Settlement.ok (QueryResult.mk q.1 q.2 true true "m"))
          (fun l => l.reverse))
        ["alice"] [Platform.mk "GITHUB", Platform.mk "TWITTER"]
        rfl (by decide) rfl (by decide))
      0 2 (by decide) (by decide) (by decide) (by decide)⟩

/-- C10: the count printed by the summary line 93, `len(platform_queries)`, equals
`|deduplicated usernames| * |selected platforms|` for every value of
`--available-only` and every settlement behavior of the checks — it counts issued
tasks, not retained results or failures. -/
theorem claim10_summary_counts_queries (allP : List Platform) (ns : Namespace)
    (cfg : RunConfig) (us0 : List String) (ps : List Platform)
    (husers : appendInputFile ns cfg.fileRead = Except.ok us0)
    (hne : us0 ≠ [])
    (hplat : selectPlatforms allP ns.restrict = Except.ok ps) :
    ∀ (b : Bool) (st : String × Platform → Settlement)
      (sc : List (String × Platform) → List (String × Platform)),
      (∀ q ∈ sc (platformQueries (dictFromKeys us0) ps), settled (st q) = true) →
      (main allP
          (Namespace.mk ns.usernames ns.restrict ns.input_file ns.cache_tokens b)
          (RunConfig.mk cfg.fileRead cfg.prefetch st sc)).map RunOutput.summaryCount
        = Except.ok ((dictFromKeys us0).length * ps.length) := by
  intro b st sc hsettle
  have husers2 : appendInputFile
      (Namespace.mk ns.usernames ns.restrict ns.input_file ns.cache_tokens b)
      (RunConfig.mk cfg.fileRead cfg.prefetch st sc).fileRead = Except.ok us0 := husers
  have hplat2 : selectPlatforms allP
      (Namespace.mk ns.usernames ns.restrict ns.input_file ns.cache_tokens b).restrict
      = Except.ok ps := hplat
  rw [main_eq_ok allP
    (Namespace.mk ns.usernames ns.restrict ns.input_file ns.cache_tokens b)
    (RunConfig.mk cfg.fileRead cfg.prefetch st sc) us0 ps husers2 hne hplat2 hsettle]
  rw [Except.map]
  rw [show (expectedOutput
      (Namespace.mk ns.usernames ns.restrict ns.input_file ns.cache_tokens b)
      (RunConfig.mk cfg.fileRead cfg.prefetch st sc) us0 ps).summaryCount
    = (platformQueries (dictFromKeys us0) ps).length from rfl]
  rw [length_platformQueries]

/-- Witness for C10: two duplicated usernames and two platforms give four queries
in the summary, under the available-only filter and with one failing task. -/
theorem claim10_witness :
    (main [Platform.mk "GITHUB", Platform.mk "TWITTER"]
        (Namespace.mk ["alice", "alice", "bob"] none none false true)
        (RunConfig.mk (fun _ => none) (fun _ => TokenFetch.fetched "tok")
          (fun q => if q.1 = "bob" then Settlement.exc (ExcKind.keyError "k")
            else Settlement.ok (QueryResult.mk q.1 q.2 false true "m"))
          (fun l => l))).map RunOutput.summaryCount
      = Except.ok 4 := by
  have h := claim10_summary_counts_queries
    [Platform.mk "GITHUB", Platform.mk "TWITTER"]
    (Namespace.mk ["alice", "alice", "bob"] none none false false)
    (RunConfig.mk (fun _ => none) (fun _ => TokenFetch.fetched "tok")
      (fun _ => Settlement.ok (QueryResult.mk "x" (Platform.mk "GITHUB") true true "m"))
      (fun l => l))
    ["alice", "alice", "bob"] [Platform.mk "GITHUB", Platform.mk "TWITTER"]
    rfl (by decide) rfl true
    (fun q => if q.1 = "bob" then Settlement.exc (ExcKind.keyError "k")
      else Settlement.ok (QueryResult.mk q.1 q.2 false true "m"))
    (fun l => l) (by decide)
  exact h

/-- C7: the per-task boundary of lines 66-73 catches exactly the two recovered
kinds — `aiohttp.ClientError` and `KeyError` — recording one formatted string per
caught exception; any settled prefix followed by a task raising any other
exception kind makes the collection loop, and with it the whole run, terminate
with that exception instead of recording it. -/
theorem claim7_exactly_two_kinds_caught (ao : Bool) :
    (∀ e : ExcKind, isCaught e = true ↔
        ((∃ ty m, e = ExcKind.clientError ty m) ∨ (∃ m, e = ExcKind.keyError m)))
    ∧ (∀ S : List Settlement, (∀ s ∈ S, settled s = true) →
        collectResponses ao S = Except.ok (retainedResults ao S, caughtStrings S))
    ∧ (∀ (S1 S2 : List Settlement) (ty m : String),
        (∀ s ∈ S1, settled s = true) →
        collectResponses ao (S1 ++ Settlement.exc (ExcKind.other ty m) :: S2)
          = Except.error (PyError.uncaught ty m))
    ∧ ∀ (allP : List Platform) (ns : Namespace) (cfg : RunConfig)
        (us0 : List String) (ps : List Platform)
        (qs1 qs2 : List (String × Platform)) (qbad : String × Platform)
        (ty m : String),
        appendInputFile ns cfg.fileRead = Except.ok us0 → us0 ≠ [] →
        selectPlatforms allP ns.restrict = Except.ok ps →
        cfg.sched (platformQueries (dictFromKeys us0) ps) = qs1 ++ qbad :: qs2 →
        cfg.settleOf qbad = Settlement.exc (ExcKind.other ty m) →
        (∀ q ∈ qs1, settled (cfg.settleOf q) = true) →
        main allP ns cfg = Except.error (PyError.uncaught ty m) := by
  refine ⟨?_, fun S h => collectResponses_eq_of_settled ao S h,
    fun S1 S2 ty m h => collectResponses_error ao ty m S2 S1 h, ?_⟩
  · intro e
    cases e with
    | clientError ty m => simp [isCaught]
    | keyError m => simp [isCaught]
    | other ty m => simp [isCaught]
  · intro allP ns cfg us0 ps qs1 qs2 qbad ty m husers hne hplat hsched hbad hq1
    have hemp : ¬ us0.isEmpty = true := by
      cases us0 with
      | nil => exact absurd rfl hne
      | cons a l => simp
    have hmap1 : ∀ s ∈ qs1.map cfg.settleOf, settled s = true := by
      intro s hs
      rcases List.mem_map.mp hs with ⟨q, hq, rfl⟩
      exact hq1 q hq
    rw [main, husers]
    simp only []
    rw [if_neg hemp, hplat]
    simp only []
    rw [hsched, List.map_append, List.map_cons, hbad,
      collectResponses_error ns.available_only ty m (qs2.map cfg.settleOf)
        (qs1.map cfg.settleOf) hmap1]

/-- Witness for C7: a `ZeroDivisionError` in the second of three settlements
aborts the whole run with that error, while a run of only caught kinds ends
normally. -/
theorem claim7_witness :
    collectResponses false
        ([Settlement.ok (QueryResult.mk "a" (Platform.mk "GITHUB") true true "m")]
          ++ Settlement.exc (ExcKind.other "ZeroDivisionError" "division by zero")
            :: [Settlement.exc (ExcKind.keyError "token")])
      = Except.error (PyError.uncaught "ZeroDivisionError" "division by zero") := by
  have h := claim7_exactly_two_kinds_caught false
  exact h.2.2.1
    [Settlement.ok (QueryResult.mk "a" (Platform.mk "GITHUB") true true "m")]
    [Settlement.exc (ExcKind.keyError "token")]
    "ZeroDivisionError" "division by zero" (by decide)

/-- C9 (code bug): `--input-file` is broken at line 42 — the code opens
`args.input`, an attribute that argparse never sets (the flag's attribute is
`input_file`), so every run with a non-empty `--input-file`, even over a
perfectly readable file, raises `AttributeError` before reading any username or
issuing any query, instead of appending the file's lines as the spec says. -/
theorem claim9_input_file_attribute_error (allP : List Platform)
    (ns : Namespace) (cfg : RunConfig) (path contents : String)
    (hfile : ns.input_file = some path) (hpath : path ≠ "")
    (hread : cfg.fileRead path = some contents) :
    main allP ns cfg =
      Except.error (PyError.attributeError
        "Namespace object has no attribute input") := by
  have h1 : ns.getattr "input_file" = some (AttrVal.ostr (some path)) := by
    simp [Namespace.getattr, hfile]
  have h2 : ns.getattr "input" = none := by
    simp [Namespace.getattr]
  have happ : appendInputFile ns cfg.fileRead
      = Except.error (PyError.attributeError
          "Namespace object has no attribute input") := by
    rw [appendInputFile, h1]
    simp only []
    rw [if_neg hpath, h2]
  rw [main, happ]

/-- Witness for C9: a run with `--input-file users.txt` over a readable two-line
file crashes with the `AttributeError` instead of querying carol and dave. -/
theorem claim9_witness :
    (fun p => if p = "users.txt" then some "carol\ndave\n" else none) "users.txt"
        = some "carol\ndave\n"
    ∧ main [Platform.mk "GITHUB"]
        (Namespace.mk ["alice"] none (some "users.txt") false false)
        (RunConfig.mk (fun p => if p = "users.txt" then some "carol\ndave\n" else none)
          (fun _ => TokenFetch.fetched "tok")
          (fun q => Settlement.ok (QueryResult.mk q.1 q.2 true true "m"))
          (fun l => l)) =
      Except.error (PyError.attributeError
        "Namespace object has no attribute input") :=
  ⟨rfl,
    claim9_input_file_attribute_error [Platform.mk "GITHUB"]
      (Namespace.mk ["alice"] none (some "users.txt") false false)
      (RunConfig.mk (fun p => if p = "users.txt" then some "carol\ndave\n" else none)
        (fun _ => TokenFetch.fetched "tok")
        (fun q => Settlement.ok (QueryResult.mk q.1 q.2 true true "m"))
        (fun l => l))
      "users.txt" "carol\ndave\n" rfl (by decide) (by decide)⟩

end Namescan
